import Mathlib

/-!
Verification of the rule-based intent recognition pipeline
(`intent_recognition/core/`: `models.py`, `regex_matcher.py`,
`keyword_matcher.py`, `rule_engine.py`, `slot_filler.py`) and of the
opt-in Excel data-source recognizer (`rule_base/xw_intent_parse.py`).

Modelling conventions:
* Python floats are modelled as rationals (`ℚ`).  Every confidence value the
  code manipulates is a small decimal (0.4, 0.8, 0.9, 1.0) and every sum the
  code forms of them is exact in IEEE double precision (0.4 + 0.4 == 0.8
  exactly, since binary double 0.8 is exactly twice binary double 0.4), so
  the rational model decides every comparison the float code decides, the
  same way.
* Python `re.search` is modelled by a small backtracking engine (`reSearch`)
  covering exactly the constructs the configured patterns use: literal
  characters, `.` (any char except newline), `\d`, greedy `*`, lazy `*?`,
  greedy `?`, `{n,}` (as n copies plus greedy `*`), a single capture group,
  and capture groups of literal alternatives.  The engine searches the
  leftmost starting position and, per position, explores alternatives in
  Python's backtracking priority order (greedy prefers longer, lazy prefers
  shorter, alternatives left to right), so `head?` of its match list is the
  match `re.search` returns.  `re.IGNORECASE` (used by `regex_matcher.py`)
  is a no-op on these patterns: none contains a cased letter.  `\d` is
  modelled as ASCII digits; no claim involves non-ASCII digits.
* Python dicts that the code only iterates or looks up are modelled as
  association lists in insertion order (Python dicts iterate in insertion
  order).
* The `reasoning` field of the final result dict
  (`RuleBasedIntentChain._generate_reasoning`) is a display-only formatted
  string that no claim mentions; it is not modelled.
-/

/-! ## A small model of Python `re.search` for the configured patterns -/

/-- Single-character matchers appearing in the configured patterns:
`.` (anything but newline, Python default), `\d`, and literal characters. -/
inductive CharClass where
  | dot
  | digit
  | lit (c : Char)
deriving DecidableEq, Repr

def matchCC : CharClass → Char → Bool
  | .dot, c => c != '\n'
  | .digit, c => c.isDigit
  | .lit a, c => a == c

/-- Quantified single-character items: `c`, `c*`, `c*?`, `c?`. -/
inductive RAtom where
  | one (cc : CharClass)
  | star (cc : CharClass)
  | lazyStar (cc : CharClass)
  | opt (cc : CharClass)
deriving DecidableEq, Repr

/-- Pattern elements: a plain atom, a capture group of atoms, or a capture
group of literal alternatives (e.g. `(昨天|今天|前天)`). -/
inductive RElem where
  | atom (a : RAtom)
  | grp (as : List RAtom)
  | alt (lits : List (List Char))
deriving DecidableEq, Repr

/-- Remainders after `cc*` consumes a prefix, greedy (longest-first) order. -/
def starRems (cc : CharClass) : List Char → List (List Char)
  | [] => [[]]
  | c :: s => if matchCC cc c then starRems cc s ++ [c :: s] else [c :: s]

/-- Remainders after `cc*?` consumes a prefix, lazy (shortest-first) order. -/
def lazyStarRems (cc : CharClass) : List Char → List (List Char)
  | [] => [[]]
  | c :: s => (c :: s) :: (if matchCC cc c then lazyStarRems cc s else [])

/-- Remainders after one atom, in backtracking priority order. -/
def atomRems : RAtom → List Char → List (List Char)
  | .one _, [] => []
  | .one cc, c :: s => if matchCC cc c then [s] else []
  | .star cc, s => starRems cc s
  | .lazyStar cc, s => lazyStarRems cc s
  | .opt _, [] => [[]]
  | .opt cc, c :: s => if matchCC cc c then [s, c :: s] else [c :: s]

/-- Remainders after a sequence of atoms, in backtracking priority order. -/
def groupRems : List RAtom → List Char → List (List Char)
  | [], s => [s]
  | a :: as, s => (atomRems a s).flatMap (groupRems as)

/-- One element: possible (capture, remainder) pairs in priority order. -/
def elemCands : RElem → List Char → List (Option (List Char) × List Char)
  | .atom a, s => (atomRems a s).map (fun r => (none, r))
  | .grp as, s => (groupRems as s).map (fun r => (some (s.take (s.length - r.length)), r))
  | .alt ls, s => ls.filterMap (fun w =>
      if w.isPrefixOf s then some (some w, s.drop w.length) else none)

/-- All matches of a pattern anchored at the start of `s`: (captured groups,
remainder) pairs in backtracking priority order. -/
def seqMatches : List RElem → List Char → List (List (List Char) × List Char)
  | [], s => [([], s)]
  | e :: es, s => (elemCands e s).flatMap (fun pr =>
      (seqMatches es pr.2).map (fun qr => (pr.1.toList ++ qr.1, qr.2)))

/-- `re.search`: try each start position left to right; at the leftmost
matching position return the backtracking engine's first match's groups. -/
def reSearch (p : List RElem) : List Char → Option (List (List Char))
  | [] => ((seqMatches p []).head?).map Prod.fst
  | c :: s =>
    match (seqMatches p (c :: s)).head? with
    | some pr => some pr.1
    | none => reSearch p s

/-- `re.search(pattern, text)` returning `match.groups()` on success. -/
def research (p : List RElem) (text : String) : Option (List String) :=
  (reSearch p text.toList).map (List.map (fun l => String.mk l))

/-- `re.search(pattern, text)` followed by `match.group(1)`.  Every
configured slot pattern has exactly one group, which always participates in
a successful match, so group 1 is the head of `match.groups()`. -/
def reGroup1 (p : List RElem) (text : String) : Option String :=
  (research p text).bind List.head?

/-! ### Pattern construction helpers -/

def litSeq (s : String) : List RAtom :=
  s.toList.map (fun c => RAtom.one (CharClass.lit c))

def dotStar : RAtom := RAtom.star CharClass.dot

def lazyDotStar : RAtom := RAtom.lazyStar CharClass.dot

/-- `\d+` : one digit then greedy digit star. -/
def digitPlus : List RAtom := [RAtom.one CharClass.digit, RAtom.star CharClass.digit]

/-- `\d{n,}` : n digits then greedy digit star. -/
def digitMin (n : Nat) : List RAtom :=
  List.replicate n (RAtom.one CharClass.digit) ++ [RAtom.star CharClass.digit]

def aseq (as : List RAtom) : List RElem := as.map RElem.atom

/-! ## Data model (`models.py`)

`IntentResult` dataclass: defaults `intent="unknown"`, `confidence=0.0`,
`matched_rules=None` (turned into `[]` by `__post_init__`),
`extracted_entities=None`.  The entity tuple is modelled as
`Option (List String)` (`none` = Python `None`). -/

structure IntentResult where
  intent : String := "unknown"
  confidence : ℚ := 0
  matched_rules : List String := []
  extracted_entities : Option (List String) := none
deriving DecidableEq, Repr

/-! ## Pattern recognizer (`regex_matcher.py`) -/

/-- `RegexIntentParser.__init__`: `self.patterns`, in source declaration
order.  Each entry is the translation of the Python regex literal. -/
def regexPatternTable : List (String × List (List RElem)) :=
  [("query_order",
     [aseq (litSeq "查" ++ [dotStar] ++ litSeq "订单" ++ [dotStar]) ++ [RElem.grp digitPlus],
      aseq (litSeq "订单号" ++ [lazyDotStar]) ++ [RElem.grp (digitMin 6)],
      aseq (litSeq "我的订单" ++ [dotStar] ++ litSeq "状态")]),
   ("refund",
     [aseq (litSeq "退" ++ [dotStar] ++ litSeq "款"),
      aseq (litSeq "取消" ++ [dotStar] ++ litSeq "订单"),
      aseq (litSeq "不要" ++ [dotStar] ++ litSeq "了")]),
   ("issue_invoice",
     [aseq (litSeq "开" ++ [dotStar] ++ litSeq "发票"),
      aseq (litSeq "要" ++ [dotStar] ++ litSeq "发票"),
      aseq (litSeq "发票" ++ [dotStar] ++ litSeq "开")])]

/-- Inner loop of `RegexIntentParser.parse`: first matching pattern of one
intent, with its index and captured groups. -/
def findPatIdx (text : String) : Nat → List (List RElem) → Option (Nat × List String)
  | _, [] => none
  | i, p :: ps =>
    match research p text with
    | some caps => some (i, caps)
    | none => findPatIdx text (i + 1) ps

/-- Outer loop of `RegexIntentParser.parse` over `self.patterns.items()`.
On a match: confidence 0.9, rule id `regex_{intent}_{i}`, entities
`match.groups() if match.groups() else None`. -/
def regexParseGo (text : String) : List (String × List (List RElem)) → IntentResult
  | [] => {}
  | (intent, ps) :: rest =>
    match findPatIdx text 0 ps with
    | some (i, caps) =>
      { intent := intent, confidence := 9/10,
        matched_rules := ["regex_" ++ intent ++ "_" ++ toString i],
        extracted_entities := if caps.isEmpty then none else some caps }
    | none => regexParseGo text rest

/-- `RegexIntentParser.parse`. -/
def regexParse (text : String) : IntentResult := regexParseGo text regexPatternTable

/-! ## Keyword recognizer (`keyword_matcher.py`) -/

/-- One intent's entry in `KeywordIntentParser.__init__`'s `self.keywords`. -/
structure KwConfig where
  primary : List String
  secondary : List String
  wPrimary : ℚ
  wSecondary : ℚ
deriving DecidableEq, Repr

/-- `self.keywords`, in source declaration order; weights 0.8 / 0.4. -/
def keywordTable : List (String × KwConfig) :=
  [("query_order", ⟨["查订单", "订单状态", "物流信息"], ["快递", "发货", "到了吗"], 4/5, 2/5⟩),
   ("refund", ⟨["退钱", "退款", "退货"], ["不要", "取消", "退回"], 4/5, 2/5⟩),
   ("issue_invoice", ⟨["开发票", "要发票", "发票"], ["报销", "开票"], 4/5, 2/5⟩)]

/-- Python substring containment on character lists. -/
def isSubChars (n : List Char) : List Char → Bool
  | [] => n.isEmpty
  | c :: s => n.isPrefixOf (c :: s) || isSubChars n s

/-- Python `needle in text` for strings. -/
def containsSub (needle text : String) : Bool :=
  isSubChars needle.toList text.toList

/-- One keyword-tier loop of `KeywordIntentParser.parse`: accumulate
`weight` per keyword found in `text`, recording the matched words. -/
def kwScan (text : String) (ws : List String) (weight : ℚ) : ℚ × List String :=
  ws.foldl (fun acc w =>
    if containsSub w text then (acc.1 + weight, acc.2 ++ [w]) else acc) (0, [])

/-- The `scores` dict of `KeywordIntentParser.parse` built over a given
keyword table: per intent (insertion order), if the accumulated score is
positive, the clamped score `min(score, 1.0)` and the matched words
(primary matches then secondary matches). -/
def scoresListT (tbl : List (String × KwConfig)) (text : String) :
    List (String × ℚ × List String) :=
  tbl.filterMap (fun ic =>
    let ps := kwScan text ic.2.primary ic.2.wPrimary
    let ss := kwScan text ic.2.secondary ic.2.wSecondary
    if 0 < ps.1 + ss.1 then some (ic.1, min (ps.1 + ss.1) 1, ps.2 ++ ss.2) else none)

/-- The `scores` dict of `KeywordIntentParser.parse` over `self.keywords`. -/
def scoresList (text : String) : List (String × ℚ × List String) :=
  scoresListT keywordTable text

/-- Python `max(xs, key=k)` over a nonempty list `b :: ys`: iterate, replace
the current best only on strictly greater key, so the earliest maximal
element wins. -/
def maxByKey {α : Type} (k : α → ℚ) : α → List α → α
  | b, [] => b
  | b, y :: ys => maxByKey k (if k b < k y then y else b) ys

/-- `KeywordIntentParser.parse`. -/
def keywordParse (text : String) : IntentResult :=
  match scoresList text with
  | [] => {}
  | e :: es =>
    let best := maxByKey (fun x => x.2.1) e es
    { intent := best.1, confidence := best.2.1,
      matched_rules := ["keyword_" ++ best.1],
      extracted_entities := some best.2.2 }

/-! ## Merge policy (`rule_engine.py`, `RuleBasedIntentChain._merge_results`) -/

/-- `any("regex" in rule for rule in r.matched_rules)`. -/
def hasRegexRule (r : IntentResult) : Bool :=
  r.matched_rules.any (fun rule => containsSub "regex" rule)

/-- `RuleBasedIntentChain._merge_results`.  Filter out `"unknown"` results;
default if none remain; if the first regex-tagged result has confidence
> 0.8 return it; otherwise `max(valid_results, key=confidence)`. -/
def mergeResults (results : List IntentResult) : IntentResult :=
  let valid := results.filter (fun r => r.intent != "unknown")
  match valid with
  | [] => {}
  | v :: vs =>
    match (v :: vs).filter hasRegexRule with
    | rr :: _ => if (4 : ℚ)/5 < rr.confidence then rr
                 else maxByKey (fun r => r.confidence) v vs
    | [] => maxByKey (fun r => r.confidence) v vs

/-! ## Slot extraction (`slot_filler.py`, `SlotExtractor`) -/

/-- `self.slot_patterns`, in source declaration order. -/
def slotTable : List (String × List (String × List RElem)) :=
  [("query_order",
     [("order_id", [RElem.grp (digitMin 6)]),
      ("time", [RElem.alt [String.toList "昨天", String.toList "今天",
                           String.toList "前天", String.toList "上周", String.toList "本月"]])]),
   ("refund",
     [("order_id", aseq (litSeq "订单" ++ [lazyDotStar]) ++ [RElem.grp (digitMin 6)]),
      ("reason", aseq (litSeq "因为") ++ [RElem.grp [lazyDotStar]] ++ aseq (litSeq "所以")),
      ("time", [RElem.alt [String.toList "昨天", String.toList "今天", String.toList "前天"]] ++
               aseq ([dotStar] ++ litSeq "下" ++ [dotStar] ++ litSeq "单"))]),
   ("issue_invoice",
     [("order_id", [RElem.grp (digitMin 6)]),
      ("amount", [RElem.grp (digitPlus ++ [RAtom.opt (CharClass.lit '.'), RAtom.star CharClass.digit])] ++
                 aseq (litSeq "元"))])]

/-- Inner loop of `SlotExtractor.extract_slots`: for each configured slot,
`re.search` the text; on success store `match.group(1)`, otherwise omit. -/
def slotsOf (pats : List (String × List RElem)) (text : String) : List (String × String) :=
  pats.filterMap (fun sp => (reGroup1 sp.2 text).map (fun v => (sp.1, v)))

/-- `SlotExtractor.extract_slots`: empty dict when the intent has no
configured slot patterns. -/
def extractSlots (text intent : String) : List (String × String) :=
  match slotTable.lookup intent with
  | some pats => slotsOf pats text
  | none => []

/-! ## Pipeline (`rule_engine.py`, `RuleBasedIntentChain.invoke`) -/

/-- The result dict of `invoke` (minus the display-only `reasoning` text). -/
structure InvokeOutput where
  intent : String
  confidence : ℚ
  slots : List (String × String)
  matched_rules : List String
  extracted_entities : Option (List String)
deriving DecidableEq, Repr

/-- `RuleBasedIntentChain.invoke`.  The input dict is modelled by its
optional `"text"` entry; `input_dict.get("text", "")` is `Option.getD`. -/
def invoke (inputText : Option String) : InvokeOutput :=
  let text := inputText.getD ""
  let rr := regexParse text
  let kr := keywordParse text
  let fr := mergeResults [rr, kr]
  let slots := extractSlots text fr.intent
  ⟨fr.intent, fr.confidence, slots, fr.matched_rules, fr.extracted_entities⟩

/-! ## Opt-in Excel data-source recognizer
(`rule_base/xw_intent_parse.py`, `ExcelIntentRecognizer`) -/

/-- The `context` dict fields `ExcelIntentRecognizer.parse` reads; a `none`
field is an absent key (`context.get(k, default)` is `Option.getD`). -/
structure ExcelContext where
  trigger_excel : Option Bool := none
  excel_type : Option String := none
  execl_path : Option String := none
  sheet_name : Option String := none
  duration_threshold : Option ℚ := none
  ignore_no_interruption : Option Bool := none
  segment_pattern : Option String := none
deriving Repr

/-- The recognizer's construction-time state (`__init__`):
per-excel-type config entries are (type, excel_path, sheet_name). -/
structure ExcelRecognizerCfg where
  default_duration_threshold : ℚ := 15
  default_ignore_no_interruption : Bool := true
  default_excel_type : String := "merged"
  segment_pattern : String := ""
  excel_types_config : List (String × String × String) := []
deriving Repr

/-- The `IntentResult` that project constructs on success (its `metadata`
dict flattened into fields; `metadata_result_count` is `len(parsed_data)`). -/
structure XIntentResult (α : Type) where
  intent : String
  confidence : ℚ
  recognizer : String
  metadata_execl_path : String
  metadata_sheet_name : String
  metadata_duration_threshold : ℚ
  metadata_ignore_no_interruption : Bool
  metadata_excel_type : String
  metadata_result_count : Nat
  metadata_data : List α
deriving Repr

/-- `ExcelIntentRecognizer.parse`.  The Excel reading + pandas analysis
(`_parse_sheet_data`, arguments: path, sheet, threshold, ignore-flag,
excel type, segment pattern) is an external side effect, abstracted as the
oracle `analyzeSheet`; `none` models the exception path (caught and turned
into `None`).  The guard `if not context.get('trigger_excel', False):
return None` is the first statement after defaulting a `None` context, so
a result can only exist when the trigger is present and truthy. -/
def excelParse {α : Type}
    (analyzeSheet : String → String → ℚ → Bool → String → String → Option (List α))
    (self : ExcelRecognizerCfg) (selfName : String) (_text : String)
    (context : Option ExcelContext) : Option (XIntentResult α) :=
  let ctx := context.getD {}
  if !(ctx.trigger_excel.getD false) then none
  else
    let excelType := ctx.excel_type.getD self.default_excel_type
    match self.excel_types_config.lookup excelType with
    | none => none
    | some (defaultPath, defaultSheet) =>
      let path := ctx.execl_path.getD defaultPath
      let sheet := ctx.sheet_name.getD defaultSheet
      let threshold := ctx.duration_threshold.getD self.default_duration_threshold
      let ignore := ctx.ignore_no_interruption.getD self.default_ignore_no_interruption
      let segPat := ctx.segment_pattern.getD self.segment_pattern
      if path = "" || sheet = "" then none
      else
        match analyzeSheet path sheet threshold ignore excelType segPat with
        | none => none
        | some parsedData =>
          some { intent := "excel_interruption_analysis", confidence := 1,
                 recognizer := selfName,
                 metadata_execl_path := path, metadata_sheet_name := sheet,
                 metadata_duration_threshold := threshold,
                 metadata_ignore_no_interruption := ignore,
                 metadata_excel_type := excelType,
                 metadata_result_count := parsedData.length,
                 metadata_data := parsedData }

/-! ## Specification-side definitions

These are written from the spec's / claims' wording, to be compared with
the source-derived definitions above. -/

/-- Python `max(l, key=k)` as the spec describes the tie-break: the first
element whose key is greater than or equal to every element's key. -/
def firstArgmax {α : Type} (k : α → ℚ) (l : List α) : Option α :=
  l.find? (fun r => l.all (fun y => decide (k y ≤ k r)))

/-- The merge policy exactly as claim C1 words it: discard unknowns;
default if none remain; else if any remaining result is a pattern (regex)
result with confidence > 0.8, return the FIRST such result; else the
globally maximum-confidence result, earliest wins ties. -/
def specMergePolicy (results : List IntentResult) : IntentResult :=
  let valid := results.filter (fun r => r.intent != "unknown")
  match valid with
  | [] => {}
  | _ :: _ =>
    match valid.find? (fun r => hasRegexRule r && decide ((4 : ℚ)/5 < r.confidence)) with
    | some r => r
    | none => (firstArgmax (fun r => r.confidence) valid).getD {}

/-- The merge policy amended to what the code does: the high-confidence
shortcut tests the FIRST pattern result's confidence (if the first pattern
result has confidence ≤ 0.8, the shortcut is skipped even when a later
pattern result exceeds 0.8). -/
def amendedMergePolicy (results : List IntentResult) : IntentResult :=
  let valid := results.filter (fun r => r.intent != "unknown")
  match valid with
  | [] => {}
  | _ :: _ =>
    match valid.find? hasRegexRule with
    | some r =>
      if (4 : ℚ)/5 < r.confidence then r
      else (firstArgmax (fun r => r.confidence) valid).getD {}
    | none => (firstArgmax (fun r => r.confidence) valid).getD {}

/-- Declaration-order flattening of the pattern table:
(intent, pattern index within the intent, pattern). -/
def flatRegexPatterns : List (String × Nat × List RElem) :=
  regexPatternTable.flatMap (fun ip => (List.enum ip.2).map (fun x => (ip.1, x.1, x.2)))

/-- The pattern recognizer as claim C4 words it: the first successful match
in declaration order wins; fixed confidence 0.9; one rule id naming intent
and pattern index; capture groups as entities; default if nothing matches. -/
def specRegexParse (text : String) : IntentResult :=
  match flatRegexPatterns.findSome?
      (fun t => (research t.2.2 text).map (fun caps => (t.1, t.2.1, caps))) with
  | some (intent, i, caps) =>
    { intent := intent, confidence := 9/10,
      matched_rules := ["regex_" ++ intent ++ "_" ++ toString i],
      extracted_entities := if caps.isEmpty then none else some caps }
  | none => {}

/-- The raw (unclamped) keyword score of one intent's config on a text:
sum of the weights of every configured keyword occurring in the text. -/
def kwRaw (cfg : KwConfig) (text : String) : ℚ :=
  ((cfg.primary.filter (fun w => containsSub w text)).length : ℚ) * cfg.wPrimary +
  ((cfg.secondary.filter (fun w => containsSub w text)).length : ℚ) * cfg.wSecondary

/-- The keyword score of an intent name over a given keyword table: sum of
the weights of every configured keyword found in the text, clamped to 1. -/
def kwScoreT (tbl : List (String × KwConfig)) (intent text : String) : ℚ :=
  match tbl.lookup intent with
  | some cfg => min (kwRaw cfg text) 1
  | none => 0

/-- The keyword score of an intent name as claim C3 words it: sum of the
weights of every configured keyword found in the text, clamped to 1. -/
def kwScore (intent text : String) : ℚ :=
  kwScoreT keywordTable intent text

/-- The keyword recognizer's choice as claim C3 words it: among declared
intents scoring > 0, the first one attaining the maximum score, paired with
that score; `none` (no opinion) if no intent scores > 0. -/
def specKeywordChoice (text : String) : Option (String × ℚ) :=
  (firstArgmax (fun i => kwScore i text)
      ((keywordTable.map Prod.fst).filter (fun i => decide (0 < kwScore i text)))).map
    (fun i => (i, kwScore i text))

/-! ## Generic list lemmas -/

theorem findCongr {α : Type} {p q : α → Bool} :
    ∀ (l : List α), (∀ x ∈ l, p x = q x) → l.find? p = l.find? q := by
  intro l
  induction l with
  | nil => intro _; rfl
  | cons a as ih =>
    intro h
    rw [List.find?_cons, List.find?_cons, h a (List.mem_cons_self a as)]
    cases hq : q a with
    | true => rfl
    | false => exact ih (fun x hx => h x (List.mem_cons_of_mem a hx))

theorem allCongr {α : Type} {p q : α → Bool} :
    ∀ (l : List α), (∀ x ∈ l, p x = q x) → l.all p = l.all q := by
  intro l
  induction l with
  | nil => intro _; rfl
  | cons a as ih =>
    intro h
    rw [List.all_cons, List.all_cons, h a (List.mem_cons_self a as),
      ih (fun x hx => h x (List.mem_cons_of_mem a hx))]

theorem allMap {α β : Type} (f : α → β) (p : β → Bool) :
    ∀ l : List α, (l.map f).all p = l.all (fun a => p (f a)) := by
  intro l
  induction l with
  | nil => rfl
  | cons a as ih => simp [List.map_cons, List.all_cons, ih]

theorem headFilter {α : Type} (p : α → Bool) :
    ∀ l : List α, (l.filter p).head? = l.find? p := by
  intro l
  induction l with
  | nil => rfl
  | cons a as ih =>
    rw [List.filter_cons, List.find?_cons]
    cases hp : p a with
    | true => simp
    | false => simp [ih]

theorem findSomeMapOpt {α β γ : Type} (f : α → Option β) (g : β → γ) :
    ∀ l : List α, l.findSome? (fun a => (f a).map g) = (l.findSome? f).map g := by
  intro l
  induction l with
  | nil => rfl
  | cons a as ih => cases hfa : f a <;> simp [List.findSome?_cons, hfa, ih]

theorem maxByKeyMem {α : Type} (k : α → ℚ) :
    ∀ (vs : List α) (v : α), maxByKey k v vs ∈ v :: vs := by
  intro vs
  induction vs with
  | nil => intro v; simp [maxByKey]
  | cons y ys ih =>
    intro v
    have h := ih (if k v < k y then y else v)
    rw [show maxByKey k v (y :: ys) = maxByKey k (if k v < k y then y else v) ys from rfl]
    rcases List.mem_cons.mp h with h1 | h2
    · by_cases hc : k v < k y
      · rw [if_pos hc] at h1 ⊢; rw [h1]
        exact List.mem_cons_of_mem v (List.mem_cons_self y ys)
      · rw [if_neg hc] at h1 ⊢; rw [h1]; exact List.mem_cons_self v (y :: ys)
    · exact List.mem_cons_of_mem v (List.mem_cons_of_mem y h2)

theorem firstArgmaxStep {α : Type} (k : α → ℚ) (v y : α) (ys : List α) :
    firstArgmax k (v :: y :: ys) = firstArgmax k ((if k v < k y then y else v) :: ys) := by
  by_cases hvy : k v < k y
  · rw [if_pos hvy]
    unfold firstArgmax
    have hpq : (fun r : α => (v :: y :: ys).all (fun z => decide (k z ≤ k r))) =
        (fun r : α => (y :: ys).all (fun z => decide (k z ≤ k r))) := by
      funext r
      rw [List.all_cons]
      cases hq : ((y :: ys).all (fun z => decide (k z ≤ k r))) with
      | true =>
        rw [Bool.and_true]
        exact decide_eq_true (le_trans (le_of_lt hvy)
          (of_decide_eq_true (List.all_eq_true.mp hq y (List.mem_cons_self y ys))))
      | false => rw [Bool.and_false]
    rw [hpq]
    have hQv : ((y :: ys).all (fun z => decide (k z ≤ k v))) = false := by
      rw [List.all_cons, decide_eq_false (not_le.mpr hvy), Bool.false_and]
    simp only [List.find?_cons, hQv]
  · have hyv : k y ≤ k v := not_lt.mp hvy
    rw [if_neg hvy]
    unfold firstArgmax
    have hpq : (fun r : α => (v :: y :: ys).all (fun z => decide (k z ≤ k r))) =
        (fun r : α => (v :: ys).all (fun z => decide (k z ≤ k r))) := by
      funext r
      rw [List.all_cons, List.all_cons, List.all_cons]
      by_cases hvr : k v ≤ k r
      · rw [decide_eq_true (le_trans hyv hvr), Bool.true_and]
      · rw [decide_eq_false hvr, Bool.false_and, Bool.false_and]
    rw [hpq]
    cases hQv : ((v :: ys).all (fun z => decide (k z ≤ k v))) with
    | true => simp only [List.find?_cons, hQv]
    | false =>
      have hQy : ((v :: ys).all (fun z => decide (k z ≤ k y))) = false := by
        cases h : ((v :: ys).all (fun z => decide (k z ≤ k y))) with
        | false => rfl
        | true =>
          exfalso
          have hall := List.all_eq_true.mp h
          have hvy' : k v ≤ k y := of_decide_eq_true (hall v (List.mem_cons_self v ys))
          have heq : k y = k v := le_antisymm hyv hvy'
          have hT : ((v :: ys).all (fun z => decide (k z ≤ k v))) = true :=
            List.all_eq_true.mpr (fun z hz => decide_eq_true (heq ▸ of_decide_eq_true (hall z hz)))
          rw [hT] at hQv
          simp at hQv
      simp only [List.find?_cons, hQv, hQy]

theorem firstArgmaxCons {α : Type} (k : α → ℚ) :
    ∀ (vs : List α) (v : α), firstArgmax k (v :: vs) = some (maxByKey k v vs) := by
  intro vs
  induction vs with
  | nil =>
    intro v
    unfold firstArgmax maxByKey
    simp [List.find?_cons, List.all_cons]
  | cons y ys ih =>
    intro v
    rw [firstArgmaxStep]
    rw [show maxByKey k v (y :: ys) = maxByKey k (if k v < k y then y else v) ys from rfl]
    exact ih _

/-! ## Merge policy lemmas -/

theorem mergeEqAmended (results : List IntentResult) :
    mergeResults results = amendedMergePolicy results := by
  simp only [mergeResults, amendedMergePolicy]
  cases hv : results.filter (fun r => r.intent != "unknown") with
  | nil => rfl
  | cons v vs =>
    have hfa : (firstArgmax (fun r : IntentResult => r.confidence) (v :: vs)).getD {} =
        maxByKey (fun r : IntentResult => r.confidence) v vs := by
      rw [firstArgmaxCons]; rfl
    cases hf : (v :: vs).filter hasRegexRule with
    | nil =>
      have hfind : (v :: vs).find? hasRegexRule = none := by
        rw [← headFilter, hf]; rfl
      simp only [hf, hfind, hfa]
    | cons rr rest =>
      have hfind : (v :: vs).find? hasRegexRule = some rr := by
        rw [← headFilter, hf]; rfl
      simp only [hf, hfind, hfa]

/-! ## Pattern recognizer iteration-order lemmas -/

theorem findPatIdxEnum (text : String) :
    ∀ (ps : List (List RElem)) (n : Nat),
      (List.enumFrom n ps).findSome?
          (fun x => (research x.2 text).map (fun caps => (x.1, caps))) =
        findPatIdx text n ps := by
  intro ps
  induction ps with
  | nil => intro n; rfl
  | cons p ps' ih =>
    intro n
    rw [show List.enumFrom n (p :: ps') = (n, p) :: List.enumFrom (n + 1) ps' from rfl]
    cases hr : research p text with
    | none => simp [List.findSome?_cons, hr, ih, findPatIdx]
    | some caps => simp [List.findSome?_cons, hr, findPatIdx]

theorem regexParseGoEq (text : String) :
    ∀ tbl : List (String × List (List RElem)),
      regexParseGo text tbl =
        match (tbl.flatMap (fun ip => (List.enum ip.2).map (fun x => (ip.1, x.1, x.2)))).findSome?
            (fun t => (research t.2.2 text).map (fun caps => (t.1, t.2.1, caps))) with
        | some (intent, i, caps) =>
          { intent := intent, confidence := 9/10,
            matched_rules := ["regex_" ++ intent ++ "_" ++ toString i],
            extracted_entities := if caps.isEmpty then none else some caps }
        | none => ({} : IntentResult) := by
  intro tbl
  induction tbl with
  | nil => rfl
  | cons ip rest ih =>
    obtain ⟨intent, ps⟩ := ip
    rw [show ((intent, ps) :: rest).flatMap
          (fun ip => (List.enum ip.2).map (fun x => (ip.1, x.1, x.2))) =
        (List.enum ps).map (fun x => ((intent, ps).1, x.1, x.2)) ++
          rest.flatMap (fun ip => (List.enum ip.2).map (fun x => (ip.1, x.1, x.2))) from rfl]
    rw [List.findSome?_append, List.findSome?_map]
    have hcomp : ((fun t : String × Nat × List RElem =>
          (research t.2.2 text).map (fun caps => (t.1, t.2.1, caps))) ∘
        (fun x : Nat × List RElem => ((intent, ps).1, x.1, x.2))) =
        fun x : Nat × List RElem =>
          ((research x.2 text).map (fun caps => (x.1, caps))).map
            (fun y => (intent, y.1, y.2)) := by
      funext x
      simp only [Function.comp, Option.map_map]
      rfl
    rw [hcomp, findSomeMapOpt]
    rw [show List.enum ps = List.enumFrom 0 ps from rfl, findPatIdxEnum text ps 0]
    cases hp : findPatIdx text 0 ps with
    | some ic =>
      obtain ⟨i, caps⟩ := ic
      simp [regexParseGo, hp, Option.or]
    | none =>
      simp only [regexParseGo, hp, Option.map_none', Option.none_or]
      exact ih

/-! ## Keyword recognizer lemmas -/

theorem posMinOne (a : ℚ) : (0 < min a 1) ↔ 0 < a := by
  constructor
  · intro h; exact lt_of_lt_of_le h (min_le_left a 1)
  · intro h; exact lt_min h one_pos

theorem kwScanFold (text : String) (w : ℚ) :
    ∀ (ws : List String) (a : ℚ) (l : List String),
      ws.foldl (fun acc x => if containsSub x text then (acc.1 + w, acc.2 ++ [x]) else acc) (a, l) =
        (a + ((ws.filter (fun x => containsSub x text)).length : ℚ) * w,
         l ++ ws.filter (fun x => containsSub x text)) := by
  intro ws
  induction ws with
  | nil => intro a l; simp
  | cons x xs ih =>
    intro a l
    simp only [List.foldl_cons, List.filter_cons]
    cases hx : containsSub x text with
    | true =>
      simp only [hx, if_true]
      rw [ih]
      congr 1
      · simp only [List.length_cons]
        push_cast
        ring
      · simp
    | false =>
      simp [hx, ih]

theorem kwScanEq (text : String) (ws : List String) (w : ℚ) :
    kwScan text ws w =
      (((ws.filter (fun x => containsSub x text)).length : ℚ) * w,
       ws.filter (fun x => containsSub x text)) := by
  unfold kwScan
  rw [kwScanFold]
  simp

theorem scoresListTMem (text : String) (tbl : List (String × KwConfig))
    (e : String × ℚ × List String) (he : e ∈ scoresListT tbl text) :
    ∃ cfg, (e.1, cfg) ∈ tbl ∧ 0 < kwRaw cfg text ∧ e.2.1 = min (kwRaw cfg text) 1 ∧
      e.2.2 = cfg.primary.filter (fun x => containsSub x text) ++
              cfg.secondary.filter (fun x => containsSub x text) := by
  unfold scoresListT at he
  obtain ⟨ic, hic, hfe⟩ := List.mem_filterMap.mp he
  simp only [kwScanEq] at hfe
  rw [show ((ic.2.primary.filter (fun x => containsSub x text)).length : ℚ) * ic.2.wPrimary +
      ((ic.2.secondary.filter (fun x => containsSub x text)).length : ℚ) * ic.2.wSecondary =
      kwRaw ic.2 text from rfl] at hfe
  split at hfe
  · injection hfe with h2
    subst h2
    refine ⟨ic.2, ?_, by assumption, rfl, rfl⟩
    simpa using hic
  · exact absurd hfe (by simp)

theorem lookupOfMemNodup {β : Type} :
    ∀ (tbl : List (String × β)) (k : String) (v : β),
      (k, v) ∈ tbl → (tbl.map Prod.fst).Nodup → tbl.lookup k = some v := by
  intro tbl
  induction tbl with
  | nil => intro k v h _; simp at h
  | cons p rest ih =>
    intro k v h hnd
    obtain ⟨nm, b⟩ := p
    have hni : nm ∉ rest.map Prod.fst := by
      simp only [List.map_cons, List.nodup_cons] at hnd
      exact hnd.1
    have hndr : (rest.map Prod.fst).Nodup := by
      simp only [List.map_cons, List.nodup_cons] at hnd
      exact hnd.2
    rcases List.mem_cons.mp h with h1 | h2
    · obtain ⟨rfl, rfl⟩ := Prod.mk.injEq .. ▸ h1
      simp [List.lookup]
    · have hk : k ≠ nm := by
        rintro rfl
        exact hni (List.mem_map.mpr ⟨(k, v), h2, rfl⟩)
      rw [show List.lookup k ((nm, b) :: rest) = List.lookup k rest from by
        simp [List.lookup, beq_eq_false_iff_ne.mpr hk]]
      exact ih k v h2 hndr

theorem kwScoreTHead (nm : String) (cfg : KwConfig) (rest : List (String × KwConfig))
    (text : String) :
    kwScoreT ((nm, cfg) :: rest) nm text = min (kwRaw cfg text) 1 := by
  unfold kwScoreT
  rw [show List.lookup nm ((nm, cfg) :: rest) = some cfg from by simp [List.lookup]]

theorem kwScoreTTail (nm i : String) (cfg : KwConfig) (rest : List (String × KwConfig))
    (text : String) (hne : i ≠ nm) :
    kwScoreT ((nm, cfg) :: rest) i text = kwScoreT rest i text := by
  unfold kwScoreT
  rw [show List.lookup i ((nm, cfg) :: rest) = List.lookup i rest from by
    simp [List.lookup, beq_eq_false_iff_ne.mpr hne]]

theorem scoresListTCons (text nm : String) (cfg : KwConfig)
    (rest : List (String × KwConfig)) :
    scoresListT ((nm, cfg) :: rest) text =
      if 0 < kwRaw cfg text
      then (nm, min (kwRaw cfg text) 1,
            cfg.primary.filter (fun x => containsSub x text) ++
            cfg.secondary.filter (fun x => containsSub x text)) :: scoresListT rest text
      else scoresListT rest text := by
  unfold scoresListT
  rw [List.filterMap_cons]
  simp only [kwScanEq]
  rw [show ((cfg.primary.filter (fun x => containsSub x text)).length : ℚ) * cfg.wPrimary +
      ((cfg.secondary.filter (fun x => containsSub x text)).length : ℚ) * cfg.wSecondary =
      kwRaw cfg text from rfl]
  by_cases h : 0 < kwRaw cfg text
  · rw [if_pos h, if_pos h]
  · rw [if_neg h, if_neg h]

theorem scoresListTNames (text : String) :
    ∀ tbl : List (String × KwConfig), (tbl.map Prod.fst).Nodup →
      (scoresListT tbl text).map Prod.fst =
        (tbl.map Prod.fst).filter (fun i => decide (0 < kwScoreT tbl i text)) := by
  intro tbl
  induction tbl with
  | nil => intro _; rfl
  | cons ic rest ih =>
    intro hnd
    obtain ⟨nm, cfg⟩ := ic
    have hni : nm ∉ rest.map Prod.fst := by
      simp only [List.map_cons, List.nodup_cons] at hnd; exact hnd.1
    have hndr : (rest.map Prod.fst).Nodup := by
      simp only [List.map_cons, List.nodup_cons] at hnd; exact hnd.2
    have hpred : decide (0 < kwScoreT ((nm, cfg) :: rest) nm text) =
        decide (0 < kwRaw cfg text) := by
      rw [kwScoreTHead]
      by_cases h : 0 < kwRaw cfg text
      · rw [decide_eq_true ((posMinOne _).mpr h), decide_eq_true h]
      · rw [decide_eq_false (fun hc => h ((posMinOne _).mp hc)), decide_eq_false h]
    have htail : (rest.map Prod.fst).filter
          (fun i => decide (0 < kwScoreT ((nm, cfg) :: rest) i text)) =
        (rest.map Prod.fst).filter (fun i => decide (0 < kwScoreT rest i text)) := by
      apply List.filter_congr
      intro i hi
      have hne : i ≠ nm := fun h => hni (h ▸ hi)
      rw [kwScoreTTail nm i cfg rest text hne]
    rw [scoresListTCons, show ((nm, cfg) :: rest).map Prod.fst = nm :: rest.map Prod.fst from rfl,
      List.filter_cons, hpred, htail]
    by_cases h : 0 < kwRaw cfg text
    · rw [if_pos h, decide_eq_true h, if_pos rfl, List.map_cons, ih hndr]
    · rw [if_neg h, decide_eq_false h, if_neg (by simp), ih hndr]

theorem scoresListTScore (text : String) (tbl : List (String × KwConfig))
    (hnd : (tbl.map Prod.fst).Nodup) (e : String × ℚ × List String)
    (he : e ∈ scoresListT tbl text) :
    kwScoreT tbl e.1 text = e.2.1 := by
  obtain ⟨cfg, hmem, _, hsc, _⟩ := scoresListTMem text tbl e he
  unfold kwScoreT
  rw [lookupOfMemNodup tbl e.1 cfg hmem hnd]
  exact hsc.symm

theorem specChoiceEq (text : String) :
    specKeywordChoice text =
      match scoresList text with
      | [] => none
      | v :: vs =>
        some ((maxByKey (fun x : String × ℚ × List String => x.2.1) v vs).1,
              (maxByKey (fun x : String × ℚ × List String => x.2.1) v vs).2.1) := by
  have hnd : (keywordTable.map Prod.fst).Nodup := by decide
  have hnames := scoresListTNames text keywordTable hnd
  unfold specKeywordChoice
  simp only [kwScore]
  rw [← hnames]
  rw [show scoresList text = scoresListT keywordTable text from rfl]
  cases hs : scoresListT keywordTable text with
  | nil => simp [firstArgmax]
  | cons v vs =>
    have hcoh : ∀ e ∈ v :: vs, kwScoreT keywordTable e.1 text = e.2.1 := by
      intro e hee
      exact scoresListTScore text keywordTable hnd e (hs ▸ hee)
    unfold firstArgmax
    rw [List.find?_map, Option.map_map]
    have hfind : (v :: vs).find?
        ((fun r => ((v :: vs).map Prod.fst).all
            (fun y => decide (kwScoreT keywordTable y text ≤ kwScoreT keywordTable r text))) ∘
          Prod.fst) =
        (v :: vs).find? (fun e => (v :: vs).all (fun y => decide (y.2.1 ≤ e.2.1))) := by
      apply findCongr
      intro e hee
      show ((v :: vs).map Prod.fst).all
          (fun y => decide (kwScoreT keywordTable y text ≤ kwScoreT keywordTable e.1 text)) = _
      rw [allMap]
      apply allCongr
      intro a haa
      rw [hcoh a haa, hcoh e hee]
    rw [hfind]
    rw [show (v :: vs).find? (fun e => (v :: vs).all (fun y => decide (y.2.1 ≤ e.2.1))) =
        firstArgmax (fun x : String × ℚ × List String => x.2.1) (v :: vs) from rfl]
    rw [firstArgmaxCons]
    have hbm := maxByKeyMem (fun x : String × ℚ × List String => x.2.1) vs v
    simp only [Option.map_some', Function.comp]
    rw [hcoh _ hbm]

/-! ## Result shape lemmas -/

theorem regexParseGoShape (text : String) :
    ∀ tbl : List (String × List (List RElem)), (∀ ip ∈ tbl, ip.1 ≠ "unknown") →
      regexParseGo text tbl = {} ∨
      ((regexParseGo text tbl).intent ≠ "unknown" ∧
       (regexParseGo text tbl).confidence = 9/10 ∧
       (regexParseGo text tbl).matched_rules ≠ [] ∧
       (regexParseGo text tbl).extracted_entities ≠ some []) := by
  intro tbl
  induction tbl with
  | nil => intro _; exact Or.inl rfl
  | cons ip rest ih =>
    intro h
    obtain ⟨intent, ps⟩ := ip
    have hi : intent ≠ "unknown" := h (intent, ps) (List.mem_cons_self _ _)
    cases hp : findPatIdx text 0 ps with
    | none =>
      rw [show regexParseGo text ((intent, ps) :: rest) = regexParseGo text rest from by
        simp [regexParseGo, hp]]
      exact ih (fun x hx => h x (List.mem_cons_of_mem _ hx))
    | some ic =>
      obtain ⟨i, caps⟩ := ic
      rw [show regexParseGo text ((intent, ps) :: rest) =
          { intent := intent, confidence := 9/10,
            matched_rules := ["regex_" ++ intent ++ "_" ++ toString i],
            extracted_entities := if caps.isEmpty then none else some caps } from by
        simp [regexParseGo, hp]]
      refine Or.inr ⟨hi, rfl, by simp, ?_⟩
      cases hc : caps with
      | nil => simp
      | cons c cs => simp

theorem regexParseShape (text : String) :
    regexParse text = {} ∨
    ((regexParse text).intent ≠ "unknown" ∧ (regexParse text).confidence = 9/10 ∧
     (regexParse text).matched_rules ≠ [] ∧
     (regexParse text).extracted_entities ≠ some []) := by
  exact regexParseGoShape text regexPatternTable (by decide)

theorem keywordParseShape (text : String) :
    keywordParse text = {} ∨
    ((keywordParse text).intent ≠ "unknown" ∧ 0 < (keywordParse text).confidence ∧
     (keywordParse text).confidence ≤ 1 ∧ (keywordParse text).matched_rules ≠ [] ∧
     (∃ ws, ws ≠ [] ∧ (keywordParse text).extracted_entities = some ws)) := by
  cases hs : scoresListT keywordTable text with
  | nil =>
    left
    unfold keywordParse
    rw [show scoresList text = scoresListT keywordTable text from rfl, hs]
  | cons v vs =>
    have hred : keywordParse text =
        { intent := (maxByKey (fun x : String × ℚ × List String => x.2.1) v vs).1,
          confidence := (maxByKey (fun x : String × ℚ × List String => x.2.1) v vs).2.1,
          matched_rules := ["keyword_" ++ (maxByKey (fun x : String × ℚ × List String => x.2.1) v vs).1],
          extracted_entities := some (maxByKey (fun x : String × ℚ × List String => x.2.1) v vs).2.2 } := by
      unfold keywordParse
      rw [show scoresList text = scoresListT keywordTable text from rfl, hs]
    have hmem : maxByKey (fun x : String × ℚ × List String => x.2.1) v vs ∈ v :: vs :=
      maxByKeyMem _ vs v
    have hmem2 : maxByKey (fun x : String × ℚ × List String => x.2.1) v vs ∈
        scoresListT keywordTable text := hs ▸ hmem
    obtain ⟨cfg, hcfg, hpos, hsc, hw⟩ := scoresListTMem text keywordTable _ hmem2
    have hint : (maxByKey (fun x : String × ℚ × List String => x.2.1) v vs).1 ≠ "unknown" := by
      have hmm : (maxByKey (fun x : String × ℚ × List String => x.2.1) v vs).1 ∈
          keywordTable.map Prod.fst := List.mem_map.mpr ⟨(_, cfg), hcfg, rfl⟩
      have h3 : (maxByKey (fun x : String × ℚ × List String => x.2.1) v vs).1 = "query_order" ∨
          (maxByKey (fun x : String × ℚ × List String => x.2.1) v vs).1 = "refund" ∨
          (maxByKey (fun x : String × ℚ × List String => x.2.1) v vs).1 = "issue_invoice" := by
        simpa [keywordTable] using hmm
      rcases h3 with h | h | h <;> rw [h] <;> decide
    rw [hred]
    refine Or.inr ⟨hint, ?_, ?_, by simp, ?_⟩
    · show 0 < (maxByKey (fun x : String × ℚ × List String => x.2.1) v vs).2.1
      rw [hsc]
      exact (posMinOne _).mpr hpos
    · show (maxByKey (fun x : String × ℚ × List String => x.2.1) v vs).2.1 ≤ 1
      rw [hsc]
      exact min_le_right _ _
    · refine ⟨(maxByKey (fun x : String × ℚ × List String => x.2.1) v vs).2.2, ?_, rfl⟩
      intro h0
      rw [hw] at h0
      obtain ⟨h1, h2⟩ := List.append_eq_nil.mp h0
      unfold kwRaw at hpos
      rw [h1, h2] at hpos
      simp at hpos

theorem mergeResultsMem (results : List IntentResult) :
    mergeResults results = {} ∨
    (mergeResults results ∈ results ∧ (mergeResults results).intent ≠ "unknown") := by
  simp only [mergeResults]
  cases hv : results.filter (fun r => r.intent != "unknown") with
  | nil => exact Or.inl rfl
  | cons v vs =>
    dsimp only
    have hsub : ∀ r ∈ v :: vs, r ∈ results ∧ r.intent ≠ "unknown" := by
      intro r hr
      have hr2 : r ∈ results.filter (fun r => r.intent != "unknown") := hv ▸ hr
      obtain ⟨hm, hp⟩ := List.mem_filter.mp hr2
      refine ⟨hm, ?_⟩
      simpa using hp
    cases hf : (v :: vs).filter hasRegexRule with
    | nil =>
      dsimp only
      exact Or.inr (hsub _ (maxByKeyMem _ vs v))
    | cons rr rest =>
      dsimp only
      by_cases hc : (4 : ℚ)/5 < rr.confidence
      · rw [if_pos hc]
        refine Or.inr (hsub rr ?_)
        have hrr : rr ∈ (v :: vs).filter hasRegexRule := hf ▸ List.mem_cons_self rr rest
        exact List.mem_of_mem_filter hrr
      · rw [if_neg hc]
        exact Or.inr (hsub _ (maxByKeyMem _ vs v))

/-! ## No-match lemmas -/

theorem findPatIdxNone (text : String) :
    ∀ (ps : List (List RElem)) (n : Nat), (∀ p ∈ ps, research p text = none) →
      findPatIdx text n ps = none := by
  intro ps
  induction ps with
  | nil => intro n _; rfl
  | cons p ps2 ih =>
    intro n h
    rw [show findPatIdx text n (p :: ps2) =
        (match research p text with
         | some caps => some (n, caps)
         | none => findPatIdx text (n + 1) ps2) from rfl]
    rw [h p (List.mem_cons_self _ _)]
    exact ih (n + 1) (fun q hq => h q (List.mem_cons_of_mem _ hq))

theorem regexParseGoNone (text : String) :
    ∀ tbl : List (String × List (List RElem)),
      (∀ ip ∈ tbl, ∀ p ∈ ip.2, research p text = none) → regexParseGo text tbl = {} := by
  intro tbl
  induction tbl with
  | nil => intro _; rfl
  | cons ip rest ih =>
    intro h
    obtain ⟨intent, ps⟩ := ip
    have hn : findPatIdx text 0 ps = none :=
      findPatIdxNone text ps 0 (fun p hp => h (intent, ps) (List.mem_cons_self _ _) p hp)
    rw [show regexParseGo text ((intent, ps) :: rest) = regexParseGo text rest from by
      simp [regexParseGo, hn]]
    exact ih (fun x hx => h x (List.mem_cons_of_mem _ hx))

theorem scoresListTNone (text : String) :
    ∀ tbl : List (String × KwConfig),
      (∀ ic ∈ tbl, ∀ w ∈ ic.2.primary ++ ic.2.secondary, containsSub w text = false) →
      scoresListT tbl text = [] := by
  intro tbl
  induction tbl with
  | nil => intro _; rfl
  | cons ic rest ih =>
    intro h
    obtain ⟨nm, cfg⟩ := ic
    have hp0 : cfg.primary.filter (fun x => containsSub x text) = [] := by
      apply List.filter_eq_nil_iff.mpr
      intro a ha
      rw [h (nm, cfg) (List.mem_cons_self _ _) a (List.mem_append_left _ ha)]
      simp
    have hs0 : cfg.secondary.filter (fun x => containsSub x text) = [] := by
      apply List.filter_eq_nil_iff.mpr
      intro a ha
      rw [h (nm, cfg) (List.mem_cons_self _ _) a (List.mem_append_right _ ha)]
      simp
    have hr0 : kwRaw cfg text = 0 := by
      unfold kwRaw
      rw [hp0, hs0]
      simp
    rw [scoresListTCons, hr0, if_neg (by norm_num)]
    exact ih (fun x hx => h x (List.mem_cons_of_mem _ hx))

theorem keywordParseNone (text : String)
    (h : ∀ ic ∈ keywordTable, ∀ w ∈ ic.2.primary ++ ic.2.secondary, containsSub w text = false) :
    keywordParse text = {} := by
  unfold keywordParse
  rw [show scoresList text = scoresListT keywordTable text from rfl,
    scoresListTNone text keywordTable h]

/-! ## Slot extraction lemmas -/

theorem slotsOfLookupAbsent (text : String) :
    ∀ (pats : List (String × List RElem)) (nm : String), nm ∉ pats.map Prod.fst →
      (slotsOf pats text).lookup nm = none := by
  intro pats
  induction pats with
  | nil => intro nm _; rfl
  | cons sp rest ih =>
    intro nm h
    obtain ⟨n0, p0⟩ := sp
    have h2 : nm ≠ n0 ∧ nm ∉ rest.map Prod.fst := by
      simpa [List.mem_cons, not_or] using h
    cases hg : reGroup1 p0 text with
    | none =>
      rw [show slotsOf ((n0, p0) :: rest) text = slotsOf rest text from by
        simp [slotsOf, List.filterMap_cons, hg]]
      exact ih nm h2.2
    | some val =>
      rw [show slotsOf ((n0, p0) :: rest) text = (n0, val) :: slotsOf rest text from by
        simp [slotsOf, List.filterMap_cons, hg]]
      rw [show List.lookup nm ((n0, val) :: slotsOf rest text) =
          List.lookup nm (slotsOf rest text) from by
        simp [List.lookup, beq_eq_false_iff_ne.mpr h2.1]]
      exact ih nm h2.2

theorem slotsOfLookup (text : String) :
    ∀ pats : List (String × List RElem), (pats.map Prod.fst).Nodup →
      ∀ nm : String, (slotsOf pats text).lookup nm =
        (pats.lookup nm).bind (fun p => reGroup1 p text) := by
  intro pats
  induction pats with
  | nil => intro _ nm; rfl
  | cons sp rest ih =>
    intro hnd nm
    obtain ⟨n0, p0⟩ := sp
    have hni : n0 ∉ rest.map Prod.fst := by
      simp only [List.map_cons, List.nodup_cons] at hnd; exact hnd.1
    have hndr : (rest.map Prod.fst).Nodup := by
      simp only [List.map_cons, List.nodup_cons] at hnd; exact hnd.2
    by_cases he : nm = n0
    · subst he
      rw [show List.lookup nm ((nm, p0) :: rest) = some p0 from by simp [List.lookup]]
      cases hg : reGroup1 p0 text with
      | none =>
        rw [show slotsOf ((nm, p0) :: rest) text = slotsOf rest text from by
          simp [slotsOf, List.filterMap_cons, hg]]
        rw [slotsOfLookupAbsent text rest nm hni]
        simp [hg]
      | some val =>
        rw [show slotsOf ((nm, p0) :: rest) text = (nm, val) :: slotsOf rest text from by
          simp [slotsOf, List.filterMap_cons, hg]]
        rw [show List.lookup nm ((nm, val) :: slotsOf rest text) = some val from by
          simp [List.lookup]]
        simp [hg]
    · rw [show List.lookup nm ((n0, p0) :: rest) = List.lookup nm rest from by
        simp [List.lookup, beq_eq_false_iff_ne.mpr he]]
      cases hg : reGroup1 p0 text with
      | none =>
        rw [show slotsOf ((n0, p0) :: rest) text = slotsOf rest text from by
          simp [slotsOf, List.filterMap_cons, hg]]
        exact ih hndr nm
      | some val =>
        rw [show slotsOf ((n0, p0) :: rest) text = (n0, val) :: slotsOf rest text from by
          simp [slotsOf, List.filterMap_cons, hg]]
        rw [show List.lookup nm ((n0, val) :: slotsOf rest text) =
            List.lookup nm (slotsOf rest text) from by
          simp [List.lookup, beq_eq_false_iff_ne.mpr he]]
        exact ih hndr nm

theorem lookupMemValues {β : Type} :
    ∀ (tbl : List (String × β)) (k : String) (b : β),
      tbl.lookup k = some b → b ∈ tbl.map Prod.snd := by
  intro tbl
  induction tbl with
  | nil => intro k b h; simp [List.lookup] at h
  | cons p rest ih =>
    intro k b h
    obtain ⟨nm, v⟩ := p
    by_cases hk : k = nm
    · subst hk
      rw [show List.lookup k ((k, v) :: rest) = some v from by simp [List.lookup]] at h
      injection h with h
      subst h
      simp
    · rw [show List.lookup k ((nm, v) :: rest) = List.lookup k rest from by
        simp [List.lookup, beq_eq_false_iff_ne.mpr hk]] at h
      exact List.mem_cons_of_mem _ (ih k b h)

theorem slotTableValuesNodup : ∀ pats ∈ slotTable.map Prod.snd, (pats.map Prod.fst).Nodup := by
  decide

theorem extractSlotsLookup (text intent nm : String) :
    (extractSlots text intent).lookup nm =
      (slotTable.lookup intent).bind
        (fun pats => (pats.lookup nm).bind (fun p => reGroup1 p text)) := by
  unfold extractSlots
  cases ht : slotTable.lookup intent with
  | none => rfl
  | some pats =>
    have hnd : (pats.map Prod.fst).Nodup :=
      slotTableValuesNodup pats (lookupMemValues slotTable intent pats ht)
    exact slotsOfLookup text pats hnd nm

theorem extractSlotsNoConfig (text intent : String) (h : slotTable.lookup intent = none) :
    extractSlots text intent = [] := by
  unfold extractSlots
  rw [h]

/-! ## Pipeline case analysis -/

theorem pipelineResultCases (text : String) :
    mergeResults [regexParse text, keywordParse text] = {} ∨
    mergeResults [regexParse text, keywordParse text] = regexParse text ∨
    mergeResults [regexParse text, keywordParse text] = keywordParse text := by
  rcases mergeResultsMem [regexParse text, keywordParse text] with h | ⟨hmem, _⟩
  · exact Or.inl h
  · rcases List.mem_cons.mp hmem with he | hmem2
    · exact Or.inr (Or.inl he)
    · rcases List.mem_cons.mp hmem2 with he | h0
      · exact Or.inr (Or.inr he)
      · simp at h0

theorem mergeUnknownRight (r : IntentResult) (h1 : (r.intent != "unknown") = true)
    (h2 : hasRegexRule r = false) : mergeResults [{}, r] = r := by
  simp only [mergeResults]
  rw [show List.filter (fun x : IntentResult => x.intent != "unknown") [{}, r] = [r] from by
    rw [List.filter_cons, List.filter_cons]
    simp [h1]]
  dsimp only
  rw [show List.filter hasRegexRule [r] = [] from by
    rw [List.filter_cons]
    simp [h2]]
  rfl

/-! ## Concrete-text evaluation lemmas -/

set_option maxRecDepth 4000 in
theorem scoresListKuaidi :
    scoresList "查一下我的快递到了吗" = [("query_order", 4/5, ["快递", "到了吗"])] := by
  with_unfolding_all decide

theorem keywordParseKuaidi :
    keywordParse "查一下我的快递到了吗" =
      { intent := "query_order", confidence := 4/5, matched_rules := ["keyword_query_order"],
        extracted_entities := some ["快递", "到了吗"] } := by
  unfold keywordParse
  rw [scoresListKuaidi]
  rfl

set_option maxRecDepth 4000 in
theorem regexParseKuaidi : regexParse "查一下我的快递到了吗" = {} := by decide

set_option maxRecDepth 4000 in
theorem scoresListFahuo :
    scoresList "快递发货" = [("query_order", 4/5, ["快递", "发货"])] := by
  with_unfolding_all decide

/-! ## Claim theorems -/

/-- C1 (amended): `_merge_results` discards "unknown" results and returns
the default unknown result if none remain; otherwise, if any remaining
result is a pattern (regex) result and the FIRST pattern result's
confidence is > 0.8 it returns that first pattern result (the code tests
the first pattern result's confidence, not "the first pattern result whose
confidence exceeds 0.8"); otherwise it returns the result with the
globally maximum confidence, ties broken in favor of the earlier
recognizer.  In particular, for the text 退款退款，我不要这个商品了 both the
regex result (confidence 0.9) and the keyword result (confidence 1.0 here)
are valid, and the merged result is the regex recognizer's. -/
theorem C1_merge_policy :
    (∀ results : List IntentResult, mergeResults results = amendedMergePolicy results) ∧
    mergeResults [regexParse "退款退款，我不要这个商品了", keywordParse "退款退款，我不要这个商品了"] =
      regexParse "退款退款，我不要这个商品了" ∧
    (regexParse "退款退款，我不要这个商品了").confidence = 9/10 ∧
    (regexParse "退款退款，我不要这个商品了").matched_rules = ["regex_refund_0"] ∧
    (keywordParse "退款退款，我不要这个商品了").intent = "refund" ∧
    (keywordParse "退款退款，我不要这个商品了").confidence = 1 :=
  ⟨mergeEqAmended, by with_unfolding_all decide, by with_unfolding_all decide, by with_unfolding_all decide, by with_unfolding_all decide, by with_unfolding_all decide⟩

/-- C1 counterexample: on a result list whose first pattern result has
confidence 0.5 ≤ 0.8 while a later pattern result has 0.9 > 0.8, the policy
exactly as the claim words it ("return the first pattern result whose
confidence is > 0.8") returns that later pattern result, but the code falls
through to the global maximum-confidence result (the keyword result at
0.95), so the claim's policy and `_merge_results` disagree. -/
theorem C1_merge_policy_counterexample :
    specMergePolicy
        [{ intent := "a", confidence := 1/2, matched_rules := ["regex_a"], extracted_entities := none },
         { intent := "b", confidence := 9/10, matched_rules := ["regex_b"], extracted_entities := none },
         { intent := "c", confidence := 19/20, matched_rules := ["keyword_c"], extracted_entities := none }] =
      { intent := "b", confidence := 9/10, matched_rules := ["regex_b"], extracted_entities := none } ∧
    mergeResults
        [{ intent := "a", confidence := 1/2, matched_rules := ["regex_a"], extracted_entities := none },
         { intent := "b", confidence := 9/10, matched_rules := ["regex_b"], extracted_entities := none },
         { intent := "c", confidence := 19/20, matched_rules := ["keyword_c"], extracted_entities := none }] =
      { intent := "c", confidence := 19/20, matched_rules := ["keyword_c"], extracted_entities := none } ∧
    mergeResults
        [{ intent := "a", confidence := 1/2, matched_rules := ["regex_a"], extracted_entities := none },
         { intent := "b", confidence := 9/10, matched_rules := ["regex_b"], extracted_entities := none },
         { intent := "c", confidence := 19/20, matched_rules := ["keyword_c"], extracted_entities := none }] ≠
      specMergePolicy
        [{ intent := "a", confidence := 1/2, matched_rules := ["regex_a"], extracted_entities := none },
         { intent := "b", confidence := 9/10, matched_rules := ["regex_b"], extracted_entities := none },
         { intent := "c", confidence := 19/20, matched_rules := ["keyword_c"], extracted_entities := none }] :=
  ⟨by with_unfolding_all decide, by with_unfolding_all decide, by with_unfolding_all decide⟩

/-- C2: for every result produced by the regex parser, the keyword parser,
or the merge of the two, the conditions intent = "unknown",
confidence = 0, and matched_rules = [] are pairwise equivalent. -/
theorem C2_unknown_invariant (text : String) :
    (((regexParse text).intent = "unknown" ↔ (regexParse text).confidence = 0) ∧
     ((regexParse text).confidence = 0 ↔ (regexParse text).matched_rules = [])) ∧
    (((keywordParse text).intent = "unknown" ↔ (keywordParse text).confidence = 0) ∧
     ((keywordParse text).confidence = 0 ↔ (keywordParse text).matched_rules = [])) ∧
    (((mergeResults [regexParse text, keywordParse text]).intent = "unknown" ↔
      (mergeResults [regexParse text, keywordParse text]).confidence = 0) ∧
     ((mergeResults [regexParse text, keywordParse text]).confidence = 0 ↔
      (mergeResults [regexParse text, keywordParse text]).matched_rules = [])) := by
  have hfacts : ∀ r : IntentResult,
      (r = {} ∨ (r.intent ≠ "unknown" ∧ r.confidence ≠ 0 ∧ r.matched_rules ≠ [])) →
      ((r.intent = "unknown" ↔ r.confidence = 0) ∧
       (r.confidence = 0 ↔ r.matched_rules = [])) := by
    rintro r (rfl | ⟨h1, h2, h3⟩)
    · exact ⟨by simp, by simp⟩
    · exact ⟨⟨fun h => absurd h h1, fun h => absurd h h2⟩,
             ⟨fun h => absurd h h2, fun h => absurd h h3⟩⟩
  have hr2 : regexParse text = {} ∨
      ((regexParse text).intent ≠ "unknown" ∧ (regexParse text).confidence ≠ 0 ∧
       (regexParse text).matched_rules ≠ []) := by
    rcases regexParseShape text with h | ⟨h1, h2, h3, _⟩
    · exact Or.inl h
    · refine Or.inr ⟨h1, ?_, h3⟩
      rw [h2]
      norm_num
  have hk2 : keywordParse text = {} ∨
      ((keywordParse text).intent ≠ "unknown" ∧ (keywordParse text).confidence ≠ 0 ∧
       (keywordParse text).matched_rules ≠ []) := by
    rcases keywordParseShape text with h | ⟨h1, h2, _, h4, _⟩
    · exact Or.inl h
    · exact Or.inr ⟨h1, ne_of_gt h2, h4⟩
  have hm2 : mergeResults [regexParse text, keywordParse text] = {} ∨
      ((mergeResults [regexParse text, keywordParse text]).intent ≠ "unknown" ∧
       (mergeResults [regexParse text, keywordParse text]).confidence ≠ 0 ∧
       (mergeResults [regexParse text, keywordParse text]).matched_rules ≠ []) := by
    rcases pipelineResultCases text with h | h | h
    · exact Or.inl h
    · rw [h]; exact hr2
    · rw [h]; exact hk2
  exact ⟨hfacts _ hr2, hfacts _ hk2, hfacts _ hm2⟩

set_option maxRecDepth 4000 in
/-- C3: the keyword recognizer scores each intent independently as the sum
of the weights of every configured keyword occurring in the text, clamped
to 1.0, and returns the intent with the maximum score among those scoring
> 0 (first-declared wins ties) with that score as confidence, or the
unknown/no-opinion result when no intent scores > 0; confidence never
exceeds 1.0, and the text 快递发货 containing exactly the two secondary
keywords 快递 and 发货 of query_order yields confidence 0.8. -/
theorem C3_keyword_scoring :
    (∀ text : String,
      ((keywordParse text).intent, (keywordParse text).confidence) =
        (specKeywordChoice text).getD ("unknown", 0) ∧
      (keywordParse text).confidence ≤ 1 ∧
      (specKeywordChoice text = none → keywordParse text = {})) ∧
    keywordParse "快递发货" =
      { intent := "query_order", confidence := 4/5,
        matched_rules := ["keyword_query_order"], extracted_entities := some ["快递", "发货"] } := by
  constructor
  · intro text
    have hspec := specChoiceEq text
    refine ⟨?_, ?_, ?_⟩
    · rw [hspec]
      unfold keywordParse
      rw [show scoresList text = scoresListT keywordTable text from rfl]
      cases hs : scoresListT keywordTable text with
      | nil => rfl
      | cons v vs => rfl
    · rcases keywordParseShape text with h | ⟨_, _, h3, _, _⟩
      · rw [h]
        norm_num
      · exact h3
    · intro hnone
      rw [hspec] at hnone
      unfold keywordParse
      rw [show scoresList text = scoresListT keywordTable text from rfl] at hnone ⊢
      cases hs : scoresListT keywordTable text with
      | nil => rfl
      | cons v vs =>
        rw [hs] at hnone
        simp at hnone
  · unfold keywordParse
    rw [scoresListFahuo]
    rfl

/-- C3 witness: on "hello" no intent scores > 0, the spec-side choice is
no-opinion, and the keyword parser returns the default unknown result. -/
theorem C3_keyword_scoring_witness :
    specKeywordChoice "hello" = none ∧ keywordParse "hello" = {} :=
  ⟨by with_unfolding_all decide, (C3_keyword_scoring.1 "hello").2.2 (by with_unfolding_all decide)⟩

/-- C4: the pattern recognizer iterates intents, and patterns within each
intent, in declaration order, returning the first successful match with
fixed confidence 0.9, a single rule id naming the intent and pattern index,
and the capture groups as extracted entities (None when the pattern has no
groups); if nothing matches it returns the default unknown result. -/
theorem C4_regex_first_match (text : String) : regexParse text = specRegexParse text := by
  have h := regexParseGoEq text regexPatternTable
  unfold regexParse specRegexParse flatRegexPatterns
  exact h

/-- C5: slot extraction searches each configured (slot name, regex) pair of
the intent independently of the others — the value found under a slot name
in the returned mapping is exactly the result of searching that slot's own
pattern and taking its first capture group, and the name is absent (lookup
none) exactly when its pattern does not match; an intent with no slot
configuration, "unknown" included, yields the empty mapping. -/
theorem C5_slot_extraction :
    (∀ text intent nm : String,
      (extractSlots text intent).lookup nm =
        (slotTable.lookup intent).bind
          (fun pats => (pats.lookup nm).bind (fun p => reGroup1 p text))) ∧
    (∀ text intent : String, slotTable.lookup intent = none → extractSlots text intent = []) ∧
    (∀ text : String, extractSlots text "unknown" = []) :=
  ⟨fun text intent nm => extractSlotsLookup text intent nm,
   fun text intent h => extractSlotsNoConfig text intent h,
   fun text => extractSlotsNoConfig text "unknown" (by with_unfolding_all decide)⟩

/-- C5 witness: "greet" has no slot configuration, and extraction for it
returns the empty mapping. -/
theorem C5_slot_extraction_witness :
    slotTable.lookup "greet" = none ∧ extractSlots "订单123456" "greet" = [] :=
  ⟨by with_unfolding_all decide, C5_slot_extraction.2.1 "订单123456" "greet" (by with_unfolding_all decide)⟩

/-- C6: for every text that matches no configured regex pattern and
contains no configured keyword, the pipeline returns the normal unknown
outcome: intent "unknown", confidence 0, empty matched_rules, and an empty
slots mapping. -/
theorem C6_unknown_fallback (text : String)
    (hre : ∀ ip ∈ regexPatternTable, ∀ p ∈ ip.2, research p text = none)
    (hkw : ∀ ic ∈ keywordTable, ∀ w ∈ ic.2.primary ++ ic.2.secondary,
      containsSub w text = false) :
    invoke (some text) =
      { intent := "unknown", confidence := 0, slots := [], matched_rules := [],
        extracted_entities := none } := by
  have hr : regexParse text = {} := regexParseGoNone text regexPatternTable hre
  have hk : keywordParse text = {} := keywordParseNone text hkw
  simp only [invoke]
  rw [show (some text).getD "" = text from rfl, hr, hk]
  rfl

/-- C6 witness: "hello" matches no pattern and contains no keyword, and the
pipeline returns the unknown outcome for it. -/
theorem C6_unknown_fallback_witness :
    (∀ ip ∈ regexPatternTable, ∀ p ∈ ip.2, research p "hello" = none) ∧
    (∀ ic ∈ keywordTable, ∀ w ∈ ic.2.primary ++ ic.2.secondary,
      containsSub w "hello" = false) ∧
    invoke (some "hello") =
      { intent := "unknown", confidence := 0, slots := [], matched_rules := [],
        extracted_entities := none } :=
  ⟨by with_unfolding_all decide, by with_unfolding_all decide, C6_unknown_fallback "hello" (by with_unfolding_all decide) (by with_unfolding_all decide)⟩

set_option maxRecDepth 4000 in
/-- C7 (amended): processing 查一下我的快递到了吗 yields intent query_order via
the keyword recognizer with confidence 0.8, from the TWO secondary keywords
快递 and 到了吗 (both occur in the text, 0.4 each). -/
theorem C7_query_order_example :
    invoke (some "查一下我的快递到了吗") =
      { intent := "query_order", confidence := 4/5, slots := [],
        matched_rules := ["keyword_query_order"], extracted_entities := some ["快递", "到了吗"] } := by
  simp only [invoke]
  rw [show (some "查一下我的快递到了吗").getD "" = "查一下我的快递到了吗" from rfl,
    regexParseKuaidi, keywordParseKuaidi]
  rw [mergeUnknownRight]
  · rfl
  · decide
  · decide

/-- C7 counterexample: on 查一下我的快递到了吗 the pipeline's confidence is not
0.4 and the matched-keyword evidence is not the single keyword 快递 (到了吗
is a configured secondary keyword of query_order and is also a substring of
the text, so the score is 0.4 + 0.4 = 0.8). -/
theorem C7_query_order_counterexample :
    (invoke (some "查一下我的快递到了吗")).confidence ≠ 2/5 ∧
    (invoke (some "查一下我的快递到了吗")).extracted_entities ≠ some ["快递"] :=
  ⟨by with_unfolding_all decide, by with_unfolding_all decide⟩

/-- C8 (amended): in every produced result, matched_rules is nonempty on a
real (non-unknown) match and is the empty list on an unknown result;
extracted_entities is null (None) — not an empty list — on an unknown
result, and on a real match it is either null (a regex pattern with no
capture group) or a nonempty list, never an empty list. -/
theorem C8_evidence_invariant (text : String) :
    (((regexParse text).intent ≠ "unknown" → (regexParse text).matched_rules ≠ []) ∧
     ((regexParse text).intent = "unknown" →
       (regexParse text).matched_rules = [] ∧ (regexParse text).extracted_entities = none) ∧
     (regexParse text).extracted_entities ≠ some []) ∧
    (((keywordParse text).intent ≠ "unknown" → (keywordParse text).matched_rules ≠ []) ∧
     ((keywordParse text).intent = "unknown" →
       (keywordParse text).matched_rules = [] ∧ (keywordParse text).extracted_entities = none) ∧
     (keywordParse text).extracted_entities ≠ some []) ∧
    (((mergeResults [regexParse text, keywordParse text]).intent ≠ "unknown" →
       (mergeResults [regexParse text, keywordParse text]).matched_rules ≠ []) ∧
     ((mergeResults [regexParse text, keywordParse text]).intent = "unknown" →
       (mergeResults [regexParse text, keywordParse text]).matched_rules = [] ∧
       (mergeResults [regexParse text, keywordParse text]).extracted_entities = none) ∧
     (mergeResults [regexParse text, keywordParse text]).extracted_entities ≠ some []) := by
  have hfacts : ∀ r : IntentResult,
      (r = {} ∨ (r.intent ≠ "unknown" ∧ r.matched_rules ≠ [] ∧
        r.extracted_entities ≠ some [])) →
      ((r.intent ≠ "unknown" → r.matched_rules ≠ []) ∧
       (r.intent = "unknown" → r.matched_rules = [] ∧ r.extracted_entities = none) ∧
       r.extracted_entities ≠ some []) := by
    rintro r (rfl | ⟨h1, h2, h3⟩)
    · exact ⟨fun h => absurd rfl h, fun _ => ⟨rfl, rfl⟩, by simp⟩
    · exact ⟨fun _ => h2, fun h => absurd h h1, h3⟩
  have hr2 : regexParse text = {} ∨
      ((regexParse text).intent ≠ "unknown" ∧ (regexParse text).matched_rules ≠ [] ∧
       (regexParse text).extracted_entities ≠ some []) := by
    rcases regexParseShape text with h | ⟨h1, _, h3, h4⟩
    · exact Or.inl h
    · exact Or.inr ⟨h1, h3, h4⟩
  have hk2 : keywordParse text = {} ∨
      ((keywordParse text).intent ≠ "unknown" ∧ (keywordParse text).matched_rules ≠ [] ∧
       (keywordParse text).extracted_entities ≠ some []) := by
    rcases keywordParseShape text with h | ⟨h1, _, _, h4, ws, hws, hent⟩
    · exact Or.inl h
    · refine Or.inr ⟨h1, h4, ?_⟩
      rw [hent]
      intro hcon
      injection hcon with hcon
      exact hws hcon
  have hm2 : mergeResults [regexParse text, keywordParse text] = {} ∨
      ((mergeResults [regexParse text, keywordParse text]).intent ≠ "unknown" ∧
       (mergeResults [regexParse text, keywordParse text]).matched_rules ≠ [] ∧
       (mergeResults [regexParse text, keywordParse text]).extracted_entities ≠ some []) := by
    rcases pipelineResultCases text with h | h | h
    · exact Or.inl h
    · rw [h]; exact hr2
    · rw [h]; exact hk2
  exact ⟨hfacts _ hr2, hfacts _ hk2, hfacts _ hm2⟩

/-- C8 witness: the real match on 退款 has a nonempty rule list; the unknown
result on "xyz" has empty rules and null entities. -/
theorem C8_evidence_invariant_witness :
    ((regexParse "退款").intent ≠ "unknown" ∧ (regexParse "退款").matched_rules ≠ []) ∧
    ((regexParse "xyz").intent = "unknown" ∧ (regexParse "xyz").matched_rules = [] ∧
     (regexParse "xyz").extracted_entities = none) :=
  ⟨⟨by with_unfolding_all decide, (C8_evidence_invariant "退款").1.1 (by with_unfolding_all decide)⟩,
   ⟨by with_unfolding_all decide, (C8_evidence_invariant "xyz").1.2.1 (by with_unfolding_all decide)⟩⟩

/-- C8 counterexample: the claim as stated is false on the code — on the
real (non-unknown) match 退款 (regex pattern 退.*款 has no capture group)
the pipeline's extracted_entities evidence field is null rather than a
nonempty list, and on the unknown result for "xyz" it is null rather than
an empty list. -/
theorem C8_evidence_counterexample :
    (invoke (some "退款")).intent = "refund" ∧
    (invoke (some "退款")).extracted_entities = none ∧
    (invoke (some "xyz")).intent = "unknown" ∧
    (invoke (some "xyz")).extracted_entities = none :=
  ⟨by with_unfolding_all decide, by with_unfolding_all decide, by with_unfolding_all decide, by with_unfolding_all decide⟩

/-- C9: whenever the trigger_excel context field is absent or false, the
Excel recognizer's parse returns no-opinion (None) immediately, for every
possible Excel analysis outcome — i.e. before any Excel-file work matters. -/
theorem C9_excel_trigger {α : Type}
    (analyzeSheet : String → String → ℚ → Bool → String → String → Option (List α))
    (self : ExcelRecognizerCfg) (selfName text : String) (context : Option ExcelContext)
    (h : (context.getD {}).trigger_excel = none ∨
         (context.getD {}).trigger_excel = some false) :
    excelParse analyzeSheet self selfName text context = none := by
  simp only [excelParse]
  have ht : ((context.getD {}).trigger_excel.getD false) = false := by
    rcases h with h | h <;> rw [h] <;> rfl
  rw [ht]
  rfl

/-- C9 witness: with an empty context (trigger absent) the recognizer
returns None even though the analysis oracle would succeed. -/
theorem C9_excel_trigger_witness :
    (((some ({} : ExcelContext)).getD {}).trigger_excel = none ∨
     ((some ({} : ExcelContext)).getD {}).trigger_excel = some false) ∧
    excelParse (fun _ _ _ _ _ _ => some ([] : List Unit)) {} "ExcelIntentRecognizer" "hello"
      (some {}) = none :=
  ⟨Or.inl rfl,
   C9_excel_trigger (fun _ _ _ _ _ _ => some ([] : List Unit)) {} "ExcelIntentRecognizer"
     "hello" (some {}) (Or.inl rfl)⟩

/-- C10: invoking the chain with an input dict that has no "text" key does
not raise — the text defaults to "", no regex pattern matches the empty
string, no configured keyword occurs in the empty string, and the result is
intent "unknown", confidence 0, empty matched_rules and empty slots. -/
theorem C10_missing_text_key :
    invoke none =
      { intent := "unknown", confidence := 0, slots := [], matched_rules := [],
        extracted_entities := none } ∧
    regexPatternTable.all (fun ip => ip.2.all (fun p => (research p "").isNone)) = true ∧
    keywordTable.all
      (fun ic => (ic.2.primary ++ ic.2.secondary).all (fun w => !containsSub w "")) = true :=
  ⟨by with_unfolding_all decide, by with_unfolding_all decide, by with_unfolding_all decide⟩
